import Mathlib

/-!
Verification development for the toml++ document-model / serializer core:
the array data model (homogeneity, flattening, copying) from
`include/toml++/impl/array.inl`, the numeric encoder from
`include/toml++/impl/print_to_stream_impl.h`, and the default formatter
(`default_formatter`) layout algorithm.

The C++ tree is shallowly embedded: nodes become an inductive type, the
std::vector of owned child pointers becomes a `List`, and the stateful
formatter becomes explicit state passing producing a list of output events
(one event per base-formatter primitive call or raw stream write).
-/

/-- The ten node type tags (`toml::node_type`). -/
inductive NodeType where
  | table
  | array
  | string
  | integer
  | floating_point
  | boolean
  | date
  | time
  | date_time
  | none
deriving DecidableEq, Repr

/-- A TOML document node. Tables carry their `is_inline` flag and an ordered
key/value entry list (insertion order); arrays carry their ordered element
list. Scalar payloads: strings as `String`, integers as `Int` (the C++ value
is an `int64_t`), floats as `Rat` (a stand-in carrier for the binary64
payload: only sign / zero / integer-part magnitude are ever inspected by the
code modelled here), and date/time fields as naturals. -/
inductive Node where
  | table (is_inl : Bool) (entries : List (String × Node))
  | arr (elems : List Node)
  | str (s : String)
  | int (v : Int)
  | float (v : Rat)
  | boolean (b : Bool)
  | date (year month day : Nat)
  | time (hour minute second nanosecond : Nat)
  | date_time (year month day hour minute second nanosecond : Nat) (offset : Option Int)

/-- `node::type()`: the type tag of a node. A live node is never `none`
(the `none` tag is only an empty/absent sentinel). -/
def node_type : Node → NodeType
  | .table _ _ => .table
  | .arr _ => .array
  | .str _ => .string
  | .int _ => .integer
  | .float _ => .floating_point
  | .boolean _ => .boolean
  | .date _ _ _ => .date
  | .time _ _ _ _ => .time
  | .date_time _ _ _ _ _ _ _ _ => .date_time

/-- `array::is_homogeneous(node_type) const` (array.inl): false on empty;
a `none` argument resolves to the first element's tag; then every element's
tag must equal the resolved tag. -/
def is_homogeneous (elems : List Node) (ntype : NodeType) : Bool :=
  match elems with
  | [] => false
  | e0 :: _ =>
    let nt := if ntype = NodeType.none then node_type e0 else ntype
    elems.all fun v => node_type v = nt

/-- The anonymous-namespace helper `array_is_homogeneous` (array.inl): the
out-parameter overload. The C++ `first_nonmatch` reference is threaded as an
explicit value: it is nulled on the empty array, assigned the first
mismatching element on failure, and left untouched when the function
returns true. -/
def array_is_homogeneous (elems : List Node) (ntype : NodeType)
    (first_nonmatch : Option Node) : Bool × Option Node :=
  match elems with
  | [] => (false, Option.none)
  | e0 :: _ =>
    let nt := if ntype = NodeType.none then node_type e0 else ntype
    go nt elems first_nonmatch
where
  /-- The element loop: return false at the first tag mismatch. -/
  go (nt : NodeType) : List Node → Option Node → Bool × Option Node
  | [], fnm => (true, fnm)
  | v :: rest, fnm =>
    if node_type v ≠ nt then (false, some v) else go nt rest fnm

/-- `array::total_leaf_count` (array.inl): array elements count their own
total leaf count, every other element counts as 1. -/
def total_leaf_count : List Node → Nat
  | [] => 0
  | .arr es :: rest => total_leaf_count es + total_leaf_count rest
  | _ :: rest => 1 + total_leaf_count rest

/-- `array::flatten_child` (array.inl): moves the leaves of a child array
into the destination slots, depth-first and left-to-right; empty nested
arrays are skipped (they contribute nothing). The C++ writes through
`dest_index` into pre-sized storage; the embedding returns the written
leaf sequence. -/
def flatten_child : List Node → List Node
  | [] => []
  | .arr es :: rest => (if es.isEmpty then [] else flatten_child es) ++ flatten_child rest
  | e :: rest => e :: flatten_child rest

/-- The main loop of `array::flatten` (array.inl): walks the element list;
non-array elements are kept in place, each array element is replaced in
place by its leaves (the C++ resizes via `preinsertion_resize` and splices
with `flatten_child`; the index then skips past the spliced-in leaves). -/
def flatten_main_pass : List Node → List Node
  | [] => []
  | .arr es :: rest => flatten_child es ++ flatten_main_pass rest
  | e :: rest => e :: flatten_main_pass rest

/-- `array::flatten` (array.inl): empty arrays are returned as-is; a
pre-pass erases array elements with zero leaves and detects whether any
flattening is required (some array element has a positive leaf count); if
none is required the (pruned) array is returned, otherwise the main
splicing pass runs. -/
def flatten (elems : List Node) : List Node :=
  if elems.isEmpty then elems
  else
    let requires_flattening := elems.any fun e =>
      match e with
      | .arr es => 0 < total_leaf_count es
      | _ => false
    let pruned := elems.filter fun e =>
      match e with
      | .arr es => 0 < total_leaf_count es
      | _ => true
    if ¬requires_flattening then pruned
    else flatten_main_pass pruned

/-- Modelled from the spec: `impl::make_node` (the deep-clone used by the
array copy constructor and copy assignment) is not under src/; per the
spec's ownership rules, "copying a container deep-copies all descendants",
so the clone recursively copies every constructor. -/
def make_node : Node → Node
  | .table i entries => .table i (clone_entries entries)
  | .arr es => .arr (clone_elems es)
  | .str s => .str s
  | .int v => .int v
  | .float v => .float v
  | .boolean b => .boolean b
  | .date y m d => .date y m d
  | .time h m s n => .time h m s n
  | .date_time y mo d h mi s n o => .date_time y mo d h mi s n o
where
  /-- Deep-clone of a table's entry list. -/
  clone_entries : List (String × Node) → List (String × Node)
  | [] => []
  | (k, v) :: rest => (k, make_node v) :: clone_entries rest
  /-- Deep-clone of an array's element list. -/
  clone_elems : List Node → List Node
  | [] => []
  | v :: rest => make_node v :: clone_elems rest

/-- `array::operator=(const array&)` (array.inl): the self-assignment test
`&rhs != this` is threaded as the explicit aliasing flag `same`; on a
distinct source the element list is cleared and rebuilt from deep copies
(`impl::make_node`) of the source's elements. -/
def array_copy_assign (self rhs : List Node) (same : Bool) : List Node :=
  if same then self
  else rhs.map make_node

/-- `array::array(const array&)` (array.inl): the copy constructor builds
the element list from deep copies of the source's elements. -/
def array_copy_construct (other : List Node) : List Node :=
  other.map make_node

/-- Per-value formatting hints (`toml::value_flags`). Modelled from the
spec: the enum header is not under src/; the spec describes the surface as
"per-value numeric-base format hints (binary/octal/hex)", so the hints are
modelled as the four distinct values the encoder's switch tests for. -/
inductive ValueFlags where
  | vnone
  | format_as_binary
  | format_as_octal
  | format_as_hexadecimal
deriving DecidableEq, Repr

/-- One digit of `std::to_chars` output: `0`-`9` then lowercase `a`-`f`. -/
def to_chars_digit (d : Nat) : Char :=
  if d < 10 then Char.ofNat (48 + d) else Char.ofNat (87 + d)

/-- The digit string of a positive magnitude in the given base, most
significant digit first (the digits `std::to_chars` emits). -/
def to_chars_digits (n : Nat) (base : Nat) : List Char :=
  if h : n < base ∨ base ≤ 1 then [to_chars_digit n]
  else to_chars_digits (n / base) base ++ [to_chars_digit (n % base)]
termination_by n
decreasing_by
  push_neg at h
  exact Nat.div_lt_self (by omega) (by omega)

/-- `std::to_chars` on a signed integer: a leading minus sign for negative
values, then the magnitude's digits in the given base. -/
def to_chars_int (v : Int) (base : Nat) : String :=
  if v < 0 then String.mk (Char.ofNat 45 :: to_chars_digits v.natAbs base)
  else String.mk (to_chars_digits v.natAbs base)

/-- The uppercase pass of `print_integer_to_stream`: the C++ rewrites every
buffer byte at or above a lowercase letter down by 32 (`buf[i] -= 32`). -/
def hex_uppercase (c : Char) : Char :=
  if 'a' ≤ c then Char.ofNat (c.toNat - 32) else c

/-- `print_integer_to_stream` (print_to_stream_impl.h, charconv path):
zero short-circuits to `"0"`; a non-`none` hint selects base 2/8/16 only
when the value is non-negative; base-16 output is uppercased. -/
def print_integer_to_stream (val : Int) (format : ValueFlags) : String :=
  if val = 0 then "0"
  else
    let base : Nat :=
      if format ≠ ValueFlags.vnone ∧ 0 ≤ val then
        match format with
        | .format_as_binary => 2
        | .format_as_octal => 8
        | .format_as_hexadecimal => 16
        | .vnone => 10
      else 10
    let buf := to_chars_int val base
    if base = 16 then String.mk (buf.data.map hex_uppercase) else buf

/-- `impl::fp_class` of a floating-point value (the `fpclassify` result the
encoder switches on). -/
inductive FpClass where
  | neg_inf
  | pos_inf
  | nan
  | ok
deriving DecidableEq, Repr

/-- The `needs_decimal_point` scan of `print_floating_point_to_stream`:
true iff the rendered text contains no decimal point and no exponent
marker. -/
def needs_decimal_point (s : String) : Bool :=
  s.data.all fun c => !(c == '.' || c == 'E' || c == 'e')

/-- Whether a hint requests hexadecimal-float rendering: the C++ tests
`!!(format & value_flags::format_as_hexadecimal)`. Modelled from the spec:
the enum's numeric values are not under src/, and the spec treats the hints
as distinct per-value base hints, so the test holds exactly for the
hexadecimal hint. -/
def format_as_hex_test : ValueFlags → Bool
  | .format_as_hexadecimal => true
  | _ => false

/-- `print_floating_point_to_stream` (print_to_stream_impl.h): special
classes render as the literal tokens; a finite (`ok`) value renders via
`std::to_chars` (hex-float form when the hexadecimal hint is set) and then
`".0"` is appended iff the hint is not hexadecimal and the text scan finds
neither `.` nor an exponent marker. The two host `to_chars` renderings are
threaded as explicit strings (binary64 shortest-round-trip output is host
behaviour, not code under src/). -/
def print_floating_point_to_stream (cls : FpClass)
    (rendered_hex rendered_dec : String) (format : ValueFlags) : String :=
  match cls with
  | .neg_inf => "-inf"
  | .pos_inf => "inf"
  | .nan => "nan"
  | .ok =>
    let str := if format_as_hex_test format then rendered_hex else rendered_dec
    str ++ (if ¬format_as_hex_test format ∧ needs_decimal_point str then ".0" else "")

/-- `default_formatter::line_wrap_cols`. -/
def line_wrap_cols : Nat := 120

/-- Floor of the base-10 logarithm of the (positive) integer part of a
magnitude, modelling the C++ `static_cast<size_t>(log10(val))` on the
already-made-positive value (host binary64 `log10` followed by a truncating
cast; on the `Rat` carrier its value is the floor log of the integer
part, and 0 for magnitudes below 1 where the C++ cast of a negative
`log10` result is not defined behaviour). -/
def log10_cast (q : Rat) : Nat :=
  Nat.log 10 q.floor.toNat

mutual

/-- `default_formatter::count_inline_columns` (the inline-width heuristic):
estimated inline width of a node; table/array accumulation stops early once
the running weight reaches `line_wrap_cols`. -/
def count_inline_columns : Node → Nat
  | .table _ entries =>
    if entries.isEmpty then 2
    else cic_table_entries 3 entries
  | .arr elems =>
    if elems.isEmpty then 2
    else cic_array_elems 3 elems
  | .str s => s.length + 2
  | .int v =>
    if v = 0 then 1
    else (if v < 0 then 1 else 0) + log10_cast (Rat.ofInt v.natAbs) + 1
  | .float v =>
    if v = 0 then 3
    else 2 + (if v < 0 then 1 else 0) + log10_cast |v| + 1
  | .boolean _ => 5
  | .date _ _ _ => 10
  | .time _ _ _ _ => 10
  | .date_time _ _ _ _ _ _ _ _ => 30

/-- The table-entry accumulation loop of `count_inline_columns`, with the
early exit at the wrap threshold. -/
def cic_table_entries (weight : Nat) : List (String × Node) → Nat
  | [] => weight
  | (k, v) :: rest =>
    let w := weight + (k.length + count_inline_columns v + 2)
    if line_wrap_cols ≤ w then w else cic_table_entries w rest

/-- The array-element accumulation loop of `count_inline_columns`, with the
early exit at the wrap threshold. -/
def cic_array_elems (weight : Nat) : List Node → Nat
  | [] => weight
  | v :: rest =>
    let w := weight + (count_inline_columns v + 2)
    if line_wrap_cols ≤ w then w else cic_array_elems w rest

end

/-- `default_formatter::forces_multiline`: the estimated inline width plus
the starting-column bias meets or exceeds the wrap threshold. -/
def forces_multiline (n : Node) (starting_column_bias : Nat) : Bool :=
  line_wrap_cols ≤ count_inline_columns n + starting_column_bias

/-- `array::is_array_of_tables`. Modelled from the spec: declared in
array.h which is not under src/; the spec defines it as "true iff the array
is non-empty, homogeneous with tag = table", i.e. `is_homogeneous` at the
table tag (which is false on the empty array). -/
def is_array_of_tables (elems : List Node) : Bool :=
  is_homogeneous elems NodeType.table

/-- The local lambda `is_non_inline_array_of_tables` in
`default_formatter::print(const table&)`: the node is an array, it is an
array of tables, and its FIRST element (`get_as<table>(0u)`) is not an
inline table. The first-element access is reached only when the
array-of-tables test already passed, so element 0 exists and is a table;
the non-table fallback arm below is unreachable under that guard. -/
def is_non_inline_array_of_tables : Node → Bool
  | .arr elems =>
    is_array_of_tables elems &&
      (match elems with
       | .table i _ :: _ => !i
       | _ => false)
  | _ => false

/-- Formatter options consumed from the base-formatter collaborator:
`indent_sub_tables()`, `indent_array_elements()` (both derived from the
format flags) and `indent_columns()` (the width of one indent level). -/
structure FmtConfig where
  indent_sub_tables : Bool
  indent_array_elements : Bool
  indent_columns : Nat
deriving DecidableEq, Repr

/-- The mutable state the formatter touches while printing: the base
formatter's indent level (`base::indent()`), and `default_formatter`'s own
per-print members `key_path_` and `pending_table_separator_`. -/
structure FmtState where
  indent : Int
  key_path : List String
  pending_table_separator : Bool
deriving DecidableEq, Repr

/-- One output event: a call to a base-formatter primitive or a raw write
to the attached stream. -/
inductive Ev where
  | raw (s : String)
  | newline (force : Bool)
  | indent_here
  | value (n : Node)
  | key_segment (s : String)
  | clear_naked_newline

/-- `default_formatter::print_pending_table_separator`: when the flag is
set, two forced newlines are emitted and the flag is cleared. -/
def print_pending_sep (st : FmtState) : List Ev × FmtState :=
  if st.pending_table_separator then
    ([.newline true, .newline true], { st with pending_table_separator := false })
  else ([], st)

/-- The events of `default_formatter::print_key_path`: the stacked key
segments joined with dots (a dot before every segment except the first),
then `clear_naked_newline` on the base formatter. -/
def print_key_path_evs (path : List String) : List Ev :=
  (match path with
   | [] => []
   | s :: rest => Ev.key_segment s :: rest.flatMap fun t => [Ev.raw ".", Ev.key_segment t])
  ++ [Ev.clear_naked_newline]

/-- The child-category counting loop at the top of the sub-table pass of
`default_formatter::print(const table&)`: value-like children (scalars,
inline tables, non-array-of-tables arrays), non-inline table children, and
array-of-tables children. Returned as
(child_value_count, child_table_count, child_table_array_count). -/
def child_counts : List (String × Node) → Nat × Nat × Nat
  | [] => (0, 0, 0)
  | (_, v) :: rest =>
    let c := child_counts rest
    match v with
    | .table true _ => (c.1 + 1, c.2.1, c.2.2)
    | .table false _ => (c.1, c.2.1 + 1, c.2.2)
    | .arr es =>
      if is_non_inline_array_of_tables (.arr es) then (c.1, c.2.1, c.2.2 + 1)
      else (c.1 + 1, c.2.1, c.2.2)
    | _ => (c.1 + 1, c.2.1, c.2.2)


/-- The entry filter of the first (immediate) pass of
`default_formatter::print(const table&)`: an entry is postponed when it is
a non-inline table (second pass) or a non-inline array-of-tables (third
pass). -/
def immediate_pass_skips : Node → Bool
  | .table is_inl _ => !is_inl
  | .arr es => is_non_inline_array_of_tables (.arr es)
  | _ => false

mutual

/-- The value dispatch switch shared by the inline-table, array and
immediate-entry loops: tables print inline, arrays print by the array
rule, every other (scalar) tag goes to `base::print_value`. The C++
`default:` arm is spelled out per scalar constructor here. -/
def print_value_like (cfg : FmtConfig) (st : FmtState) : Node → List Ev × FmtState
  | .table _ ces => print_inline_table cfg st ces
  | .arr es => print_array cfg st es
  | .str s => ([Ev.value (.str s)], st)
  | .int n => ([Ev.value (.int n)], st)
  | .float q => ([Ev.value (.float q)], st)
  | .boolean b => ([Ev.value (.boolean b)], st)
  | .date y m d => ([Ev.value (.date y m d)], st)
  | .time h m s n => ([Ev.value (.time h m s n)], st)
  | .date_time y mo d h mi s n o => ([Ev.value (.date_time y mo d h mi s n o)], st)
termination_by v => (sizeOf v, 2)

/-- `default_formatter::print_inline(const table&)`: `\x7b\x7d` when empty,
otherwise `\x7b `, the entries separated by `, `, ` \x7d`; then
`clear_naked_newline`. -/
def print_inline_table (cfg : FmtConfig) (st : FmtState)
    (entries : List (String × Node)) : List Ev × FmtState :=
  if entries.isEmpty then ([Ev.raw "\x7b\x7d", Ev.clear_naked_newline], st)
  else
    let r := print_inline_entries cfg st false entries
    (Ev.raw "\x7b " :: r.1 ++ [Ev.raw " \x7d", Ev.clear_naked_newline], r.2)
termination_by (sizeOf entries, 1)

/-- The entry loop of `print_inline`: the `first` flag puts `, ` before
every entry except the first; each entry prints its key, ` = `, then the
value. -/
def print_inline_entries (cfg : FmtConfig) (st : FmtState) (first : Bool) :
    List (String × Node) → List Ev × FmtState
  | [] => ([], st)
  | (k, v) :: rest =>
    let sep : List Ev := if first then [Ev.raw ", "] else []
    let rv := print_value_like cfg st v
    let rr := print_inline_entries cfg rv.2 true rest
    (sep ++ [Ev.key_segment k, Ev.raw " = "] ++ rv.1 ++ rr.1, rr.2)
termination_by l => (sizeOf l, 0)

/-- `default_formatter::print(const array&)`: `[]` when empty; otherwise
the multiline decision via `forces_multiline` biased by
`indent_columns * max(indent, 0)`, then `[`, the elements, and the
matching close; then `clear_naked_newline`. In multiline layout a negative
indent is first clamped to 0 and the indent optionally increased, both
restored to the original indent at the close. -/
def print_array (cfg : FmtConfig) (st : FmtState)
    (elems : List Node) : List Ev × FmtState :=
  if elems.isEmpty then ([Ev.raw "[]", Ev.clear_naked_newline], st)
  else
    let original_indent := st.indent
    let multiline := forces_multiline (.arr elems)
      (cfg.indent_columns * (if original_indent < 0 then 0 else original_indent.toNat))
    let st1 :=
      if multiline then
        let stA := if original_indent < 0 then { st with indent := 0 } else st
        if cfg.indent_array_elements then { stA with indent := stA.indent + 1 } else stA
      else st
    let open_evs := if multiline then [Ev.raw "["] else [Ev.raw "[", Ev.raw " "]
    let rl := print_array_elems cfg st1 multiline false elems
    let close_evs := if multiline then [Ev.newline true, Ev.indent_here, Ev.raw "]"]
      else [Ev.raw " ", Ev.raw "]"]
    let stEnd := if multiline then { rl.2 with indent := original_indent } else rl.2
    (open_evs ++ rl.1 ++ close_evs ++ [Ev.clear_naked_newline], stEnd)
termination_by (sizeOf elems, 1)

/-- The element loop of `print(const array&)`: a `,` (plus a space when
inline) before every element except the first; in multiline layout each
element is preceded by a forced newline and the indent. -/
def print_array_elems (cfg : FmtConfig) (st : FmtState)
    (multiline first : Bool) : List Node → List Ev × FmtState
  | [] => ([], st)
  | v :: rest =>
    let sep : List Ev :=
      if first then (if multiline then [Ev.raw ","] else [Ev.raw ",", Ev.raw " "]) else []
    let pre : List Ev := if multiline then [Ev.newline true, Ev.indent_here] else []
    let rv := print_value_like cfg st v
    let rr := print_array_elems cfg rv.2 multiline true rest
    (sep ++ pre ++ rv.1 ++ rr.1, rr.2)
termination_by l => (sizeOf l, 0)

/-- The first pass of `default_formatter::print(const table&)`: every
entry that is not postponed to a later pass is printed as a
`key = value` line (newline, indent, key, ` = `, value), setting the
pending-separator flag before printing. -/
def print_table_pass1 (cfg : FmtConfig) (st : FmtState) :
    List (String × Node) → List Ev × FmtState
  | [] => ([], st)
  | (k, v) :: rest =>
    if immediate_pass_skips v then print_table_pass1 cfg st rest
    else
      let st1 := { st with pending_table_separator := true }
      let rv := print_value_like cfg st1 v
      let rr := print_table_pass1 cfg rv.2 rest
      ([Ev.newline false, Ev.indent_here, Ev.key_segment k, Ev.raw " = "] ++ rv.1 ++ rr.1, rr.2)
termination_by l => (sizeOf l, 0)

/-- The second pass of `default_formatter::print(const table&)`: every
non-inline table entry. Its children are classified by `child_counts`;
when there are no value-like children and at least one nested table or
array-of-tables, the sub-table's own header is skipped; the key is pushed
on the key path in either case, the child is printed recursively, then the
key is popped and (when the header was emitted) the indent restored.
All other entry shapes are passed over (spelled out per constructor). -/
def print_table_pass2 (cfg : FmtConfig) (st : FmtState) :
    List (String × Node) → List Ev × FmtState
  | [] => ([], st)
  | (k, Node.table false ces) :: rest =>
    let c := child_counts ces
    let skip_self : Bool := c.1 == 0 && (c.2.1 != 0 || c.2.2 != 0)
    let stP := { st with key_path := st.key_path ++ [k] }
    let rh : List Ev × FmtState :=
      if skip_self then ([], stP)
      else
        let rf := print_pending_sep stP
        let stI := if cfg.indent_sub_tables then { rf.2 with indent := rf.2.indent + 1 } else rf.2
        (rf.1 ++ [Ev.indent_here, Ev.raw "["] ++ print_key_path_evs stI.key_path ++ [Ev.raw "]"],
         { stI with pending_table_separator := true })
    let rc := print_table cfg rh.2 ces
    let stPop := { rc.2 with key_path := rc.2.key_path.dropLast }
    let stEnd := if !skip_self && cfg.indent_sub_tables then { stPop with indent := stPop.indent - 1 } else stPop
    let rr := print_table_pass2 cfg stEnd rest
    (rh.1 ++ rc.1 ++ rr.1, rr.2)
  | (_, Node.table true _) :: rest => print_table_pass2 cfg st rest
  | (_, Node.arr _) :: rest => print_table_pass2 cfg st rest
  | (_, Node.str _) :: rest => print_table_pass2 cfg st rest
  | (_, Node.int _) :: rest => print_table_pass2 cfg st rest
  | (_, Node.float _) :: rest => print_table_pass2 cfg st rest
  | (_, Node.boolean _) :: rest => print_table_pass2 cfg st rest
  | (_, Node.date _ _ _) :: rest => print_table_pass2 cfg st rest
  | (_, Node.time _ _ _ _) :: rest => print_table_pass2 cfg st rest
  | (_, Node.date_time _ _ _ _ _ _ _ _) :: rest => print_table_pass2 cfg st rest
termination_by l => (sizeOf l, 0)

/-- The third pass of `default_formatter::print(const table&)`: every
entry satisfying `is_non_inline_array_of_tables` (the predicate only holds
for arrays, so only array entries are tested; the others are passed over,
spelled out per constructor); the indent is (optionally) increased once
and the key pushed for the whole array, each element then prints its
`[[..]]` header plus body, and the key/indent are restored. -/
def print_table_pass3 (cfg : FmtConfig) (st : FmtState) :
    List (String × Node) → List Ev × FmtState
  | [] => ([], st)
  | (k, Node.arr elems) :: rest =>
    if is_non_inline_array_of_tables (.arr elems) then
      let stI := if cfg.indent_sub_tables then { st with indent := st.indent + 1 } else st
      let stP := { stI with key_path := stI.key_path ++ [k] }
      let re := print_table_array_elems cfg stP elems
      let stPop := { re.2 with key_path := re.2.key_path.dropLast }
      let stD := if cfg.indent_sub_tables then { stPop with indent := stPop.indent - 1 } else stPop
      let rr := print_table_pass3 cfg stD rest
      (re.1 ++ rr.1, rr.2)
    else print_table_pass3 cfg st rest
  | (_, Node.table _ _) :: rest => print_table_pass3 cfg st rest
  | (_, Node.str _) :: rest => print_table_pass3 cfg st rest
  | (_, Node.int _) :: rest => print_table_pass3 cfg st rest
  | (_, Node.float _) :: rest => print_table_pass3 cfg st rest
  | (_, Node.boolean _) :: rest => print_table_pass3 cfg st rest
  | (_, Node.date _ _ _) :: rest => print_table_pass3 cfg st rest
  | (_, Node.time _ _ _ _) :: rest => print_table_pass3 cfg st rest
  | (_, Node.date_time _ _ _ _ _ _ _ _) :: rest => print_table_pass3 cfg st rest
termination_by l => (sizeOf l, 0)

/-- The element loop of the table-array pass: each element flushes any
pending separator, prints indent, `[[`, the key path, `]]`, sets the
pending separator and prints the element as a block table. The elements
are tables whenever the pass guard held (the C++ casts unconditionally);
the non-table arms are unreachable under that guard and print no body. -/
def print_table_array_elems (cfg : FmtConfig) (st : FmtState) :
    List Node → List Ev × FmtState
  | [] => ([], st)
  | Node.table _ ces :: rest =>
    let rf := print_pending_sep st
    let hdr := [Ev.indent_here, Ev.raw "[["] ++ print_key_path_evs rf.2.key_path ++ [Ev.raw "]]"]
    let stH := { rf.2 with pending_table_separator := true }
    let rt := print_table cfg stH ces
    let rr := print_table_array_elems cfg rt.2 rest
    (rf.1 ++ hdr ++ rt.1 ++ rr.1, rr.2)
  | _ :: rest =>
    let rf := print_pending_sep st
    let hdr := [Ev.indent_here, Ev.raw "[["] ++ print_key_path_evs rf.2.key_path ++ [Ev.raw "]]"]
    let stH := { rf.2 with pending_table_separator := true }
    let rr := print_table_array_elems cfg stH rest
    (rf.1 ++ hdr ++ rr.1, rr.2)
termination_by l => (sizeOf l, 0)

/-- `default_formatter::print(const table&)`: the three ordered passes
(immediate `key = value` entries, then non-inline sub-tables, then
non-inline arrays of tables), each in insertion order. -/
def print_table (cfg : FmtConfig) (st : FmtState)
    (entries : List (String × Node)) : List Ev × FmtState :=
  let r1 := print_table_pass1 cfg st entries
  let r2 := print_table_pass2 cfg r1.2 entries
  let r3 := print_table_pass3 cfg r2.2 entries
  (r1.1 ++ r2.1 ++ r3.1, r3.2)
termination_by (sizeOf entries, 1)

end

/-- `default_formatter::print()` (the top-level entry point) for a bound
node source: an inline root table prints inline; a non-inline root table
first decreases the ambient indent (so root entries align with top-level
headers) and prints as a block table; a root array prints with the array
rule; any other root prints as a single scalar. (The failed-parse branch
`dump_failed_parse_result` concerns the parse-result constructor, which is
outside the node-bound embedding.) -/
def print_top (cfg : FmtConfig) (st : FmtState) (source : Node) : List Ev × FmtState :=
  match source with
  | .table true es => print_inline_table cfg st es
  | .table false es => print_table cfg { st with indent := st.indent - 1 } es
  | .arr es => print_array cfg st es
  | v => ([Ev.value v], st)

/-- The state `default_formatter::operator<<` hands to `print()` after its
preamble: the stream is attached and `key_path_.clear()` is called. No
other per-print member is touched before `print()` runs. -/
def start_of_print_state (st : FmtState) : FmtState :=
  { st with key_path := [] }

/-- `operator<<(std::ostream&, default_formatter&)`: attach, clear the key
path, run the full print, detach. Attach/detach bind the external sink and
are not part of the tracked state. -/
def default_formatter_output (cfg : FmtConfig) (st : FmtState) (source : Node) :
    List Ev × FmtState :=
  print_top cfg (start_of_print_state st) source

/-- The number of `raw` events carrying exactly the given text. -/
def count_raw (s : String) : List Ev → Nat
  | [] => 0
  | .raw t :: rest => (if t = s then 1 else 0) + count_raw s rest
  | _ :: rest => count_raw s rest

/-- Flushing the pending separator touches neither the key path nor the
indent. -/
theorem print_pending_sep_state (st : FmtState) :
    (print_pending_sep st).2.key_path = st.key_path ∧
    (print_pending_sep st).2.indent = st.indent := by
  unfold print_pending_sep
  split <;> simp

/-- Flushing the pending separator keeps the key path. -/
theorem print_pending_sep_kp (st : FmtState) :
    (print_pending_sep st).2.key_path = st.key_path := by
  unfold print_pending_sep
  split <;> simp

/-- Flushing the pending separator keeps the indent. -/
theorem print_pending_sep_indent (st : FmtState) :
    (print_pending_sep st).2.indent = st.indent := by
  unfold print_pending_sep
  split <;> simp

mutual

/-- The value dispatch restores (never touches) the key path and indent. -/
theorem print_value_like_preserves : ∀ (cfg : FmtConfig) (st : FmtState) (v : Node),
    (print_value_like cfg st v).2.key_path = st.key_path ∧
    (print_value_like cfg st v).2.indent = st.indent
  | cfg, st, .table i ces => by
    simp only [print_value_like]
    exact print_inline_table_preserves cfg st ces
  | cfg, st, .arr es => by
    simp only [print_value_like]
    exact print_array_preserves cfg st es
  | cfg, st, .str s => by simp [print_value_like]
  | cfg, st, .int n => by simp [print_value_like]
  | cfg, st, .float q => by simp [print_value_like]
  | cfg, st, .boolean b => by simp [print_value_like]
  | cfg, st, .date y m d => by simp [print_value_like]
  | cfg, st, .time h m s n => by simp [print_value_like]
  | cfg, st, .date_time y mo d h mi s n o => by simp [print_value_like]
termination_by cfg st v => (sizeOf v, 2)

/-- `print_inline` restores the key path and indent. -/
theorem print_inline_table_preserves : ∀ (cfg : FmtConfig) (st : FmtState)
    (entries : List (String × Node)),
    (print_inline_table cfg st entries).2.key_path = st.key_path ∧
    (print_inline_table cfg st entries).2.indent = st.indent
  | cfg, st, entries => by
    rw [print_inline_table]
    split
    · simp
    · have h := print_inline_entries_preserves cfg st false entries
      simpa using h
termination_by cfg st entries => (sizeOf entries, 1)

/-- The `print_inline` entry loop preserves the key path and indent. -/
theorem print_inline_entries_preserves : ∀ (cfg : FmtConfig) (st : FmtState)
    (first : Bool) (l : List (String × Node)),
    (print_inline_entries cfg st first l).2.key_path = st.key_path ∧
    (print_inline_entries cfg st first l).2.indent = st.indent
  | cfg, st, first, [] => by simp [print_inline_entries]
  | cfg, st, first, (k, v) :: rest => by
    have hv := print_value_like_preserves cfg st v
    have hr := print_inline_entries_preserves cfg (print_value_like cfg st v).2 true rest
    simp only [print_inline_entries]
    exact ⟨hr.1.trans hv.1, hr.2.trans hv.2⟩
termination_by cfg st first l => (sizeOf l, 0)

/-- `print(const array&)` restores the key path and indent. -/
theorem print_array_preserves : ∀ (cfg : FmtConfig) (st : FmtState)
    (elems : List Node),
    (print_array cfg st elems).2.key_path = st.key_path ∧
    (print_array cfg st elems).2.indent = st.indent
  | cfg, st, elems => by
    have hp : ∀ stX m f, (print_array_elems cfg stX m f elems).2.key_path = stX.key_path ∧
        (print_array_elems cfg stX m f elems).2.indent = stX.indent :=
      fun stX m f => print_array_elems_preserves cfg stX m f elems
    have hp1 : ∀ stX m f, (print_array_elems cfg stX m f elems).2.key_path = stX.key_path :=
      fun stX m f => (hp stX m f).1
    have hp2 : ∀ stX m f, (print_array_elems cfg stX m f elems).2.indent = stX.indent :=
      fun stX m f => (hp stX m f).2
    simp only [print_array]
    split
    · simp
    · generalize forces_multiline (Node.arr elems)
        (cfg.indent_columns * (if st.indent < 0 then 0 else st.indent.toNat)) = m
      cases m
      · constructor
        · simpa using hp1 st false false
        · simpa using hp2 st false false
      · constructor
        · simp [hp1]
          split <;> (try split) <;> simp
        · simp
termination_by cfg st elems => (sizeOf elems, 1)

/-- The array element loop preserves the key path and indent. -/
theorem print_array_elems_preserves : ∀ (cfg : FmtConfig) (st : FmtState)
    (multiline first : Bool) (l : List Node),
    (print_array_elems cfg st multiline first l).2.key_path = st.key_path ∧
    (print_array_elems cfg st multiline first l).2.indent = st.indent
  | cfg, st, multiline, first, [] => by simp [print_array_elems]
  | cfg, st, multiline, first, v :: rest => by
    have hv := print_value_like_preserves cfg st v
    have hr := print_array_elems_preserves cfg (print_value_like cfg st v).2 multiline true rest
    simp only [print_array_elems]
    exact ⟨hr.1.trans hv.1, hr.2.trans hv.2⟩
termination_by cfg st multiline first l => (sizeOf l, 0)

/-- The immediate-entry pass preserves the key path and indent. -/
theorem print_table_pass1_preserves : ∀ (cfg : FmtConfig) (st : FmtState)
    (l : List (String × Node)),
    (print_table_pass1 cfg st l).2.key_path = st.key_path ∧
    (print_table_pass1 cfg st l).2.indent = st.indent
  | cfg, st, [] => by simp [print_table_pass1]
  | cfg, st, (k, v) :: rest => by
    rw [print_table_pass1]
    split
    · exact print_table_pass1_preserves cfg st rest
    · have hv := print_value_like_preserves cfg { st with pending_table_separator := true } v
      have hr := print_table_pass1_preserves cfg
        (print_value_like cfg { st with pending_table_separator := true } v).2 rest
      exact ⟨hr.1.trans hv.1, hr.2.trans hv.2⟩
termination_by cfg st l => (sizeOf l, 0)

/-- The sub-table pass preserves the key path and indent. -/
theorem print_table_pass2_preserves : ∀ (cfg : FmtConfig) (st : FmtState)
    (l : List (String × Node)),
    (print_table_pass2 cfg st l).2.key_path = st.key_path ∧
    (print_table_pass2 cfg st l).2.indent = st.indent
  | cfg, st, [] => by simp [print_table_pass2]
  | cfg, st, (k, Node.table false ces) :: rest => by
    have hc : ∀ stX, (print_table cfg stX ces).2.key_path = stX.key_path ∧
        (print_table cfg stX ces).2.indent = stX.indent :=
      fun stX => print_table_preserves cfg stX ces
    have hc1 : ∀ stX, (print_table cfg stX ces).2.key_path = stX.key_path := fun stX => (hc stX).1
    have hc2 : ∀ stX, (print_table cfg stX ces).2.indent = stX.indent := fun stX => (hc stX).2
    have hr : ∀ stX, (print_table_pass2 cfg stX rest).2.key_path = stX.key_path ∧
        (print_table_pass2 cfg stX rest).2.indent = stX.indent :=
      fun stX => print_table_pass2_preserves cfg stX rest
    have hr1 : ∀ stX, (print_table_pass2 cfg stX rest).2.key_path = stX.key_path :=
      fun stX => (hr stX).1
    have hr2 : ∀ stX, (print_table_pass2 cfg stX rest).2.indent = stX.indent :=
      fun stX => (hr stX).2
    simp only [print_table_pass2]
    constructor
    · simp only [hr1]
      cases hsk : ((child_counts ces).1 == 0 &&
          ((child_counts ces).2.1 != 0 || (child_counts ces).2.2 != 0)) <;>
        (try simp [apply_ite, hc1, print_pending_sep_kp]) <;>
        (try split <;> simp_all [apply_ite, hc1, print_pending_sep_kp]) <;>
        (try omega)
    · simp only [hr2]
      cases hsk : ((child_counts ces).1 == 0 &&
          ((child_counts ces).2.1 != 0 || (child_counts ces).2.2 != 0)) <;>
        (try simp [apply_ite, hc1, hc2, print_pending_sep_kp, print_pending_sep_indent]) <;>
        (try split <;> simp_all [apply_ite, hc1, hc2, print_pending_sep_kp, print_pending_sep_indent]) <;>
        (try omega)
  | cfg, st, (k, Node.table true ces) :: rest => by
    rw [print_table_pass2]; exact print_table_pass2_preserves cfg st rest
  | cfg, st, (k, Node.arr es) :: rest => by
    rw [print_table_pass2]; exact print_table_pass2_preserves cfg st rest
  | cfg, st, (k, Node.str s) :: rest => by
    rw [print_table_pass2]; exact print_table_pass2_preserves cfg st rest
  | cfg, st, (k, Node.int n) :: rest => by
    rw [print_table_pass2]; exact print_table_pass2_preserves cfg st rest
  | cfg, st, (k, Node.float q) :: rest => by
    rw [print_table_pass2]; exact print_table_pass2_preserves cfg st rest
  | cfg, st, (k, Node.boolean b) :: rest => by
    rw [print_table_pass2]; exact print_table_pass2_preserves cfg st rest
  | cfg, st, (k, Node.date y m d) :: rest => by
    rw [print_table_pass2]; exact print_table_pass2_preserves cfg st rest
  | cfg, st, (k, Node.time h m s n) :: rest => by
    rw [print_table_pass2]; exact print_table_pass2_preserves cfg st rest
  | cfg, st, (k, Node.date_time y mo d h mi s n o) :: rest => by
    rw [print_table_pass2]; exact print_table_pass2_preserves cfg st rest
termination_by cfg st l => (sizeOf l, 0)

/-- The table-array pass preserves the key path and indent. -/
theorem print_table_pass3_preserves : ∀ (cfg : FmtConfig) (st : FmtState)
    (l : List (String × Node)),
    (print_table_pass3 cfg st l).2.key_path = st.key_path ∧
    (print_table_pass3 cfg st l).2.indent = st.indent
  | cfg, st, [] => by simp [print_table_pass3]
  | cfg, st, (k, Node.arr elems) :: rest => by
    have he : ∀ stX, (print_table_array_elems cfg stX elems).2.key_path = stX.key_path ∧
        (print_table_array_elems cfg stX elems).2.indent = stX.indent :=
      fun stX => print_table_array_elems_preserves cfg stX elems
    have he1 : ∀ stX, (print_table_array_elems cfg stX elems).2.key_path = stX.key_path :=
      fun stX => (he stX).1
    have he2 : ∀ stX, (print_table_array_elems cfg stX elems).2.indent = stX.indent :=
      fun stX => (he stX).2
    have hr : ∀ stX, (print_table_pass3 cfg stX rest).2.key_path = stX.key_path ∧
        (print_table_pass3 cfg stX rest).2.indent = stX.indent :=
      fun stX => print_table_pass3_preserves cfg stX rest
    have hr1 : ∀ stX, (print_table_pass3 cfg stX rest).2.key_path = stX.key_path :=
      fun stX => (hr stX).1
    have hr2 : ∀ stX, (print_table_pass3 cfg stX rest).2.indent = stX.indent :=
      fun stX => (hr stX).2
    simp only [print_table_pass3]
    constructor
    · split
      · simp only [hr1]
        simp [apply_ite, he1, print_pending_sep_kp]
      · simp only [hr1]
    · split
      · simp only [hr2]
        (try simp [apply_ite, he1, he2]) <;>
          (try split <;> simp_all [apply_ite, he1, he2]) <;> (try omega)
      · simp only [hr2]
  | cfg, st, (k, Node.table i ces) :: rest => by
    rw [print_table_pass3]; exact print_table_pass3_preserves cfg st rest
  | cfg, st, (k, Node.str s) :: rest => by
    rw [print_table_pass3]; exact print_table_pass3_preserves cfg st rest
  | cfg, st, (k, Node.int n) :: rest => by
    rw [print_table_pass3]; exact print_table_pass3_preserves cfg st rest
  | cfg, st, (k, Node.float q) :: rest => by
    rw [print_table_pass3]; exact print_table_pass3_preserves cfg st rest
  | cfg, st, (k, Node.boolean b) :: rest => by
    rw [print_table_pass3]; exact print_table_pass3_preserves cfg st rest
  | cfg, st, (k, Node.date y m d) :: rest => by
    rw [print_table_pass3]; exact print_table_pass3_preserves cfg st rest
  | cfg, st, (k, Node.time h m s n) :: rest => by
    rw [print_table_pass3]; exact print_table_pass3_preserves cfg st rest
  | cfg, st, (k, Node.date_time y mo d h mi s n o) :: rest => by
    rw [print_table_pass3]; exact print_table_pass3_preserves cfg st rest
termination_by cfg st l => (sizeOf l, 0)

/-- The table-array element loop preserves the key path and indent. -/
theorem print_table_array_elems_preserves : ∀ (cfg : FmtConfig) (st : FmtState)
    (l : List Node),
    (print_table_array_elems cfg st l).2.key_path = st.key_path ∧
    (print_table_array_elems cfg st l).2.indent = st.indent
  | cfg, st, [] => by simp [print_table_array_elems]
  | cfg, st, e :: rest => by
    have hr : ∀ stX, (print_table_array_elems cfg stX rest).2.key_path = stX.key_path ∧
        (print_table_array_elems cfg stX rest).2.indent = stX.indent :=
      fun stX => print_table_array_elems_preserves cfg stX rest
    have hr1 : ∀ stX, (print_table_array_elems cfg stX rest).2.key_path = stX.key_path :=
      fun stX => (hr stX).1
    have hr2 : ∀ stX, (print_table_array_elems cfg stX rest).2.indent = stX.indent :=
      fun stX => (hr stX).2
    rcases e with ⟨i, ces⟩ | ⟨es⟩ | ⟨s⟩ | ⟨n⟩ | ⟨q⟩ | ⟨b⟩ | ⟨y, m, d⟩ | ⟨h, m, s, n⟩ |
      ⟨y, mo, d, h, mi, s, n, o⟩
    · have hc1 : ∀ stX, (print_table cfg stX ces).2.key_path = stX.key_path :=
        fun stX => (print_table_preserves cfg stX ces).1
      have hc2 : ∀ stX, (print_table cfg stX ces).2.indent = stX.indent :=
        fun stX => (print_table_preserves cfg stX ces).2
      rw [print_table_array_elems]
      constructor
      · simp [hr1, hc1, print_pending_sep_kp]
      · simp [hr2, hc2, print_pending_sep_indent]
    all_goals
      simp only [print_table_array_elems]
      constructor
      · simp [hr1, print_pending_sep_kp]
      · simp [hr2, print_pending_sep_indent]
termination_by cfg st l => (sizeOf l, 0)

/-- `print(const table&)` preserves the key path and indent. -/
theorem print_table_preserves : ∀ (cfg : FmtConfig) (st : FmtState)
    (entries : List (String × Node)),
    (print_table cfg st entries).2.key_path = st.key_path ∧
    (print_table cfg st entries).2.indent = st.indent
  | cfg, st, entries => by
    have h1 := print_table_pass1_preserves cfg st entries
    have h2 := print_table_pass2_preserves cfg (print_table_pass1 cfg st entries).2 entries
    have h3 := print_table_pass3_preserves cfg
      (print_table_pass2 cfg (print_table_pass1 cfg st entries).2 entries).2 entries
    rw [print_table]
    exact ⟨(h3.1.trans h2.1).trans h1.1, (h3.2.trans h2.2).trans h1.2⟩
termination_by cfg st entries => (sizeOf entries, 1)

end

/-- C2 counterexample: the claim says `is_homogeneous` on a single-element
array returns true for EVERY type-tag argument; on the one-integer array
tested with the string tag it returns false. -/
theorem is_homogeneous_single_any_tag_cex :
    is_homogeneous [Node.int 1] NodeType.string = false := rfl

/-- C2 (amended): `is_homogeneous` on the empty array is false for every
tag; on a single-element array it is true exactly when the tag argument is
unspecified (`none`) or equals the element's own tag. -/
theorem is_homogeneous_empty_single (t : NodeType) (e : Node) :
    is_homogeneous [] t = false ∧
    (is_homogeneous [e] t = true ↔ (t = NodeType.none ∨ node_type e = t)) := by
  refine ⟨rfl, ?_⟩
  by_cases ht : t = NodeType.none <;> simp [is_homogeneous, ht]

/-- The element loop of `array_is_homogeneous` returns true and leaves the
out-parameter untouched when every element matches the resolved tag. -/
theorem array_is_homogeneous_go_all (nt : NodeType) :
    ∀ (l : List Node) (fnm : Option Node), (∀ v ∈ l, node_type v = nt) →
      array_is_homogeneous.go nt l fnm = (true, fnm)
  | [], fnm, _ => rfl
  | v :: rest, fnm, h => by
    rw [array_is_homogeneous.go]
    have hv : node_type v = nt := h v (by simp)
    rw [if_neg (by simp [hv])]
    exact array_is_homogeneous_go_all nt rest fnm fun w hw => h w (by simp [hw])

/-- The element loop of `array_is_homogeneous` stops at the leftmost
mismatching element, returning false and pointing the out-parameter
at it. -/
theorem array_is_homogeneous_go_mismatch (nt : NodeType) :
    ∀ (l : List Node) (fnm : Option Node) (i : Nat) (hi : i < l.length),
      node_type (l.get ⟨i, hi⟩) ≠ nt →
      (∀ j (hj : j < i), node_type (l.get ⟨j, Nat.lt_trans hj hi⟩) = nt) →
      array_is_homogeneous.go nt l fnm = (false, some (l.get ⟨i, hi⟩))
  | v :: rest, fnm, 0, hi, hmis, _ => by
    rw [array_is_homogeneous.go]
    simp only [List.get] at hmis ⊢
    rw [if_pos hmis]
  | v :: rest, fnm, i + 1, hi, hmis, hpre => by
    rw [array_is_homogeneous.go]
    have hv : node_type v = nt := hpre 0 (Nat.succ_pos i)
    rw [if_neg (by simpa using hv)]
    exact array_is_homogeneous_go_mismatch nt rest fnm i (Nat.lt_of_succ_lt_succ hi)
      hmis (fun j hj => hpre (j + 1) (Nat.succ_lt_succ hj))

/-- C9: the out-parameter overload of `is_homogeneous`: the empty array
yields false with a nulled `first_nonmatch`; a non-empty array whose
elements all match the resolved tag (the given tag, or the first element's
tag when `none` is given) yields true with `first_nonmatch` untouched; and
when a mismatch against the resolved tag exists, the result is false with
`first_nonmatch` set to the leftmost mismatching element. -/
theorem array_is_homogeneous_first_nonmatch (elems : List Node) (t : NodeType)
    (fnm0 : Option Node) :
    (elems = [] → array_is_homogeneous elems t fnm0 = (false, Option.none)) ∧
    (∀ e0 rest, elems = e0 :: rest →
      ((∀ v ∈ elems, node_type v = (if t = NodeType.none then node_type e0 else t)) →
        array_is_homogeneous elems t fnm0 = (true, fnm0)) ∧
      (∀ i (hi : i < elems.length),
        node_type (elems.get ⟨i, hi⟩) ≠ (if t = NodeType.none then node_type e0 else t) →
        (∀ j (hj : j < i),
          node_type (elems.get ⟨j, Nat.lt_trans hj hi⟩) =
            (if t = NodeType.none then node_type e0 else t)) →
        array_is_homogeneous elems t fnm0 = (false, some (elems.get ⟨i, hi⟩)))) := by
  constructor
  · intro h; subst h; rfl
  · intro e0 rest he
    subst he
    constructor
    · intro hall
      rw [array_is_homogeneous]
      exact array_is_homogeneous_go_all _ _ _ hall
    · intro i hi hmis hpre
      rw [array_is_homogeneous]
      exact array_is_homogeneous_go_mismatch _ _ _ i hi hmis hpre

/-- C9 witness: on `[1, "a"]` tested with the integer tag the overload
returns false and points at the string element. -/
theorem array_is_homogeneous_first_nonmatch_witness :
    array_is_homogeneous [Node.int 1, Node.str "a"] NodeType.integer Option.none =
      (false, some (Node.str "a")) := by
  have h := ((array_is_homogeneous_first_nonmatch [Node.int 1, Node.str "a"]
    NodeType.integer Option.none).2 (Node.int 1) [Node.str "a"] rfl).2 1 (by norm_num)
    (by simp [node_type])
    (by intro j hj; interval_cases j; simp [node_type])
  simpa using h

/-- The leaf sequence `flatten_child` writes has exactly
`total_leaf_count` elements. -/
theorem flatten_child_length : ∀ l : List Node,
    (flatten_child l).length = total_leaf_count l
  | [] => by simp [flatten_child, total_leaf_count]
  | .arr es :: rest => by
    rw [flatten_child, total_leaf_count]
    rcases h : es with _ | ⟨e, tl⟩
    · simp [flatten_child_length rest, total_leaf_count]
    · rw [← h]
      have h1 : es.isEmpty = false := by simp [h]
      simp [h1, flatten_child_length es, flatten_child_length rest]
  | .table i ces :: rest => by
    simp [flatten_child, total_leaf_count, flatten_child_length rest]; omega
  | .str s :: rest => by
    simp [flatten_child, total_leaf_count, flatten_child_length rest]; omega
  | .int n :: rest => by
    simp [flatten_child, total_leaf_count, flatten_child_length rest]; omega
  | .float q :: rest => by
    simp [flatten_child, total_leaf_count, flatten_child_length rest]; omega
  | .boolean b :: rest => by
    simp [flatten_child, total_leaf_count, flatten_child_length rest]; omega
  | .date y m d :: rest => by
    simp [flatten_child, total_leaf_count, flatten_child_length rest]; omega
  | .time h m s n :: rest => by
    simp [flatten_child, total_leaf_count, flatten_child_length rest]; omega
  | .date_time y mo d h mi s n o :: rest => by
    simp [flatten_child, total_leaf_count, flatten_child_length rest]; omega
termination_by l => sizeOf l

/-- The main splicing pass preserves the leaf count as its length. -/
theorem flatten_main_pass_length : ∀ l : List Node,
    (flatten_main_pass l).length = total_leaf_count l
  | [] => by simp [flatten_main_pass, total_leaf_count]
  | .arr es :: rest => by
    simp [flatten_main_pass, total_leaf_count, flatten_child_length es,
      flatten_main_pass_length rest]
  | .table i ces :: rest => by
    simp [flatten_main_pass, total_leaf_count, flatten_main_pass_length rest]; omega
  | .str s :: rest => by
    simp [flatten_main_pass, total_leaf_count, flatten_main_pass_length rest]; omega
  | .int n :: rest => by
    simp [flatten_main_pass, total_leaf_count, flatten_main_pass_length rest]; omega
  | .float q :: rest => by
    simp [flatten_main_pass, total_leaf_count, flatten_main_pass_length rest]; omega
  | .boolean b :: rest => by
    simp [flatten_main_pass, total_leaf_count, flatten_main_pass_length rest]; omega
  | .date y m d :: rest => by
    simp [flatten_main_pass, total_leaf_count, flatten_main_pass_length rest]; omega
  | .time h m s n :: rest => by
    simp [flatten_main_pass, total_leaf_count, flatten_main_pass_length rest]; omega
  | .date_time y mo d h mi s n o :: rest => by
    simp [flatten_main_pass, total_leaf_count, flatten_main_pass_length rest]; omega

/-- Erasing the array elements with zero leaves (the pre-pass of
`flatten`) does not change the total leaf count. -/
theorem total_leaf_count_prune (l : List Node) :
    total_leaf_count (l.filter fun e =>
      match e with
      | .arr es => 0 < total_leaf_count es
      | _ => true) = total_leaf_count l := by
  induction l with
  | nil => rfl
  | cons e rest ih =>
    rcases e with ⟨i, ces⟩ | ⟨es⟩ | ⟨s⟩ | ⟨n⟩ | ⟨q⟩ | ⟨b⟩ | ⟨y, m, d⟩ | ⟨h, m, s, n⟩ |
      ⟨y, mo, d, h, mi, s, n, o⟩
    case arr =>
      by_cases h0 : 0 < total_leaf_count es
      · simp [List.filter_cons, h0, total_leaf_count, ih]
      · have hz : total_leaf_count es = 0 := by omega
        simp [List.filter_cons, h0, total_leaf_count, ih, hz]
    all_goals simp [List.filter_cons, total_leaf_count, ih]

/-- A list with no array elements counts one leaf per element. -/
theorem total_leaf_count_of_no_array (l : List Node)
    (h : ∀ e ∈ l, node_type e ≠ NodeType.array) :
    total_leaf_count l = l.length := by
  induction l with
  | nil => simp [total_leaf_count]
  | cons e rest ih =>
    have he := h e (by simp)
    have hr := ih fun x hx => h x (by simp [hx])
    rcases e with ⟨i, ces⟩ | ⟨es⟩ | ⟨s⟩ | ⟨n⟩ | ⟨q⟩ | ⟨b⟩ | ⟨y, m, d⟩ | ⟨h2, m, s, n⟩ |
      ⟨y, mo, d, h2, mi, s, n, o⟩
    case arr => simp [node_type] at he
    all_goals simp [total_leaf_count, hr, Nat.add_comm]

/-- When no array element has leaves, every element surviving the prune is
a non-array. -/
theorem prune_no_array_of_not_requires (l : List Node)
    (h : (l.any fun e =>
      match e with
      | .arr es => 0 < total_leaf_count es
      | _ => false) = false) :
    ∀ e ∈ (l.filter fun e =>
      match e with
      | .arr es => 0 < total_leaf_count es
      | _ => true), node_type e ≠ NodeType.array := by
  intro e he
  rw [List.mem_filter] at he
  rcases e with ⟨i, ces⟩ | ⟨es⟩ | ⟨s⟩ | ⟨n⟩ | ⟨q⟩ | ⟨b⟩ | ⟨y, m, d⟩ | ⟨h2, m, s, n⟩ |
    ⟨y, mo, d, h2, mi, s, n, o⟩
    <;> simp [node_type]
  have h1 := he.2
  rw [List.any_eq_false] at h
  have h2 := h _ he.1
  simp at h1 h2
  omega

/-- C4: for every array, `total_leaf_count` equals the number of elements
`flatten` produces (arrays count their own leaf count recursively,
non-arrays count as one, empty nested arrays contribute nothing). -/
theorem total_leaf_count_eq_flatten_length (elems : List Node) :
    total_leaf_count elems = (flatten elems).length := by
  simp only [flatten]
  split
  · rename_i hemp
    rw [List.isEmpty_iff] at hemp
    subst hemp
    simp [total_leaf_count]
  · split
    · rename_i hemp hreq
      have hfalse : (elems.any fun e =>
          match e with
          | .arr es => 0 < total_leaf_count es
          | _ => false) = false := by
        revert hreq
        cases elems.any fun e =>
          match e with
          | .arr es => 0 < total_leaf_count es
          | _ => false <;> simp
      have hnoarr := prune_no_array_of_not_requires elems hfalse
      rw [← total_leaf_count_prune elems,
        total_leaf_count_of_no_array _ hnoarr]
    · rw [flatten_main_pass_length, total_leaf_count_prune]

/-- `flatten_child` writes only non-array leaves. -/
theorem flatten_child_no_array : ∀ (l : List Node),
    ∀ e ∈ flatten_child l, node_type e ≠ NodeType.array
  | [] => by simp [flatten_child]
  | .arr es :: rest => by
    simp only [flatten_child]
    intro e he
    rw [List.mem_append] at he
    rcases he with he | he
    · rcases h : es.isEmpty with _ | _
      · rw [h] at he
        simp only [if_false, Bool.false_eq_true] at he
        exact flatten_child_no_array es e he
      · rw [h] at he
        simp at he
    · exact flatten_child_no_array rest e he
  | .table i ces :: rest => by
    simp only [flatten_child]
    intro e he
    rcases List.mem_cons.mp he with he | he
    · subst he; simp [node_type]
    · exact flatten_child_no_array rest e he
  | .str s :: rest => by
    simp only [flatten_child]
    intro e he
    rcases List.mem_cons.mp he with he | he
    · subst he; simp [node_type]
    · exact flatten_child_no_array rest e he
  | .int n :: rest => by
    simp only [flatten_child]
    intro e he
    rcases List.mem_cons.mp he with he | he
    · subst he; simp [node_type]
    · exact flatten_child_no_array rest e he
  | .float q :: rest => by
    simp only [flatten_child]
    intro e he
    rcases List.mem_cons.mp he with he | he
    · subst he; simp [node_type]
    · exact flatten_child_no_array rest e he
  | .boolean b :: rest => by
    simp only [flatten_child]
    intro e he
    rcases List.mem_cons.mp he with he | he
    · subst he; simp [node_type]
    · exact flatten_child_no_array rest e he
  | .date y m d :: rest => by
    simp only [flatten_child]
    intro e he
    rcases List.mem_cons.mp he with he | he
    · subst he; simp [node_type]
    · exact flatten_child_no_array rest e he
  | .time h m s n :: rest => by
    simp only [flatten_child]
    intro e he
    rcases List.mem_cons.mp he with he | he
    · subst he; simp [node_type]
    · exact flatten_child_no_array rest e he
  | .date_time y mo d h mi s n o :: rest => by
    simp only [flatten_child]
    intro e he
    rcases List.mem_cons.mp he with he | he
    · subst he; simp [node_type]
    · exact flatten_child_no_array rest e he
termination_by l => sizeOf l

/-- The main splicing pass outputs only non-array elements: kept elements
are non-arrays by the pattern, spliced ones come from `flatten_child`. -/
theorem flatten_main_pass_no_array : ∀ (l : List Node),
    ∀ e ∈ flatten_main_pass l, node_type e ≠ NodeType.array
  | [] => by simp [flatten_main_pass]
  | .arr es :: rest => by
    simp only [flatten_main_pass]
    intro e he
    rcases List.mem_append.mp he with he | he
    · exact flatten_child_no_array es e he
    · exact flatten_main_pass_no_array rest e he
  | .table i ces :: rest => by
    simp only [flatten_main_pass]
    intro e he
    rcases List.mem_cons.mp he with he | he
    · subst he; simp [node_type]
    · exact flatten_main_pass_no_array rest e he
  | .str s :: rest => by
    simp only [flatten_main_pass]
    intro e he
    rcases List.mem_cons.mp he with he | he
    · subst he; simp [node_type]
    · exact flatten_main_pass_no_array rest e he
  | .int n :: rest => by
    simp only [flatten_main_pass]
    intro e he
    rcases List.mem_cons.mp he with he | he
    · subst he; simp [node_type]
    · exact flatten_main_pass_no_array rest e he
  | .float q :: rest => by
    simp only [flatten_main_pass]
    intro e he
    rcases List.mem_cons.mp he with he | he
    · subst he; simp [node_type]
    · exact flatten_main_pass_no_array rest e he
  | .boolean b :: rest => by
    simp only [flatten_main_pass]
    intro e he
    rcases List.mem_cons.mp he with he | he
    · subst he; simp [node_type]
    · exact flatten_main_pass_no_array rest e he
  | .date y m d :: rest => by
    simp only [flatten_main_pass]
    intro e he
    rcases List.mem_cons.mp he with he | he
    · subst he; simp [node_type]
    · exact flatten_main_pass_no_array rest e he
  | .time h m s n :: rest => by
    simp only [flatten_main_pass]
    intro e he
    rcases List.mem_cons.mp he with he | he
    · subst he; simp [node_type]
    · exact flatten_main_pass_no_array rest e he
  | .date_time y mo d h mi s n o :: rest => by
    simp only [flatten_main_pass]
    intro e he
    rcases List.mem_cons.mp he with he | he
    · subst he; simp [node_type]
    · exact flatten_main_pass_no_array rest e he

/-- After `flatten`, no element is an array. -/
theorem flatten_no_array (elems : List Node) :
    ∀ e ∈ flatten elems, node_type e ≠ NodeType.array := by
  simp only [flatten]
  split
  · rename_i hemp
    rw [List.isEmpty_iff] at hemp
    subst hemp
    simp
  · split
    · rename_i hemp hreq
      have hfalse : (elems.any fun e =>
          match e with
          | .arr es => 0 < total_leaf_count es
          | _ => false) = false := by
        revert hreq
        cases elems.any fun e =>
          match e with
          | .arr es => 0 < total_leaf_count es
          | _ => false <;> simp
      exact prune_no_array_of_not_requires elems hfalse
    · exact flatten_main_pass_no_array _

/-- Flattening a list with no array elements returns it unchanged: the
pre-pass erases nothing and detects no work. -/
theorem flatten_of_no_array (l : List Node)
    (h : ∀ e ∈ l, node_type e ≠ NodeType.array) :
    flatten l = l := by
  rw [flatten]
  split
  · rfl
  · have hreq : (l.any fun e =>
        match e with
        | .arr es => 0 < total_leaf_count es
        | _ => false) = false := by
      rw [List.any_eq_false]
      intro e he
      have := h e he
      rcases e with ⟨i, ces⟩ | ⟨es⟩ | ⟨s⟩ | ⟨n⟩ | ⟨q⟩ | ⟨b⟩ | ⟨y, m, d⟩ | ⟨h2, m, s, n⟩ |
        ⟨y, mo, d, h2, mi, s, n, o⟩ <;> simp [node_type] at this ⊢
    have hfil : (l.filter fun e =>
        match e with
        | .arr es => 0 < total_leaf_count es
        | _ => true) = l := by
      rw [List.filter_eq_self]
      intro e he
      have := h e he
      rcases e with ⟨i, ces⟩ | ⟨es⟩ | ⟨s⟩ | ⟨n⟩ | ⟨q⟩ | ⟨b⟩ | ⟨y, m, d⟩ | ⟨h2, m, s, n⟩ |
        ⟨y, mo, d, h2, mi, s, n, o⟩ <;> simp [node_type] at this ⊢
    simp [hreq, hfil]

/-- C5: `flatten` is idempotent (a second flatten reproduces the same
element sequence), and flattening an array that contains no array
elements leaves it unchanged. (Totality holds by construction: `flatten`
is a total function of the element list.) -/
theorem flatten_idempotent (A : List Node) :
    flatten (flatten A) = flatten A ∧
    ((∀ e ∈ A, node_type e ≠ NodeType.array) → flatten A = A) :=
  ⟨flatten_of_no_array _ (flatten_no_array A), flatten_of_no_array A⟩

/-- C5 witness: idempotence and the no-array no-op at a concrete array. -/
theorem flatten_idempotent_witness :
    flatten (flatten [Node.int 1, Node.str "a"]) = flatten [Node.int 1, Node.str "a"] ∧
    flatten [Node.int 1, Node.str "a"] = [Node.int 1, Node.str "a"] :=
  ⟨(flatten_idempotent [Node.int 1, Node.str "a"]).1,
   (flatten_idempotent [Node.int 1, Node.str "a"]).2 (by
      intro e he
      rcases List.mem_cons.mp he with h | h
      · subst h; simp [node_type]
      · rcases List.mem_cons.mp h with h | h
        · subst h; simp [node_type]
        · simp at h)⟩

mutual

/-- A deep copy (`impl::make_node`) reproduces the node's entire value. -/
theorem make_node_id : ∀ n : Node, make_node n = n
  | .table i entries => by
    rw [make_node, make_node_clone_entries_id entries]
  | .arr es => by
    rw [make_node, make_node_clone_elems_id es]
  | .str s => by rw [make_node]
  | .int v => by rw [make_node]
  | .float v => by rw [make_node]
  | .boolean b => by rw [make_node]
  | .date y m d => by rw [make_node]
  | .time h m s n => by rw [make_node]
  | .date_time y mo d h mi s n o => by rw [make_node]
termination_by n => sizeOf n

/-- Deep-copying a table's entry list reproduces it. -/
theorem make_node_clone_entries_id : ∀ l : List (String × Node),
    make_node.clone_entries l = l
  | [] => by rw [make_node.clone_entries]
  | (k, v) :: rest => by
    rw [make_node.clone_entries, make_node_id v, make_node_clone_entries_id rest]
termination_by l => sizeOf l

/-- Deep-copying an array's element list reproduces it. -/
theorem make_node_clone_elems_id : ∀ l : List Node,
    make_node.clone_elems l = l
  | [] => by rw [make_node.clone_elems]
  | v :: rest => by
    rw [make_node.clone_elems, make_node_id v, make_node_clone_elems_id rest]
termination_by l => sizeOf l

end

/-- C10: copy assignment with the self-aliasing test true is a no-op on
the destination; with a distinct source it replaces the destination's
elements by deep copies of the source's elements, and those deep copies
equal the source's elements (value semantics: the source itself is an
unchanged input to the pure function). -/
theorem array_copy_assign_spec (self rhs : List Node) :
    array_copy_assign self rhs true = self ∧
    array_copy_assign self rhs false = rhs.map make_node ∧
    rhs.map make_node = rhs := by
  refine ⟨rfl, rfl, ?_⟩
  induction rhs with
  | nil => rfl
  | cons a tl ih => simp [make_node_id a, ih]

/-- C7: 64-bit integer encoding: zero yields exactly `"0"` for every
hint; a negative value renders in decimal for every hint; a positive
value renders in decimal with no hint, in base 2/8 for the binary/octal
hints, and uppercased base 16 for the hexadecimal hint. -/
theorem print_integer_spec (v : Int) (format : ValueFlags)
    (hlo : -(2 ^ 63) ≤ v) (hhi : v < 2 ^ 63) :
    (v = 0 → print_integer_to_stream v format = "0") ∧
    (v < 0 → print_integer_to_stream v format = to_chars_int v 10) ∧
    (0 < v →
      (print_integer_to_stream v ValueFlags.vnone = to_chars_int v 10 ∧
       print_integer_to_stream v ValueFlags.format_as_binary = to_chars_int v 2 ∧
       print_integer_to_stream v ValueFlags.format_as_octal = to_chars_int v 8 ∧
       print_integer_to_stream v ValueFlags.format_as_hexadecimal =
         String.mk ((to_chars_int v 16).data.map hex_uppercase))) := by
  refine ⟨?_, ?_, ?_⟩
  · intro h
    simp [print_integer_to_stream, h]
  · intro h
    have h0 : ¬v = 0 := by omega
    have hc : ¬(format ≠ ValueFlags.vnone ∧ 0 ≤ v) := by
      rintro ⟨-, h2⟩
      omega
    simp [print_integer_to_stream, h0, hc]
  · intro h
    have h0 : ¬v = 0 := by omega
    refine ⟨?_, ?_, ?_, ?_⟩
    · simp [print_integer_to_stream, h0]
    · have hc : (ValueFlags.format_as_binary ≠ ValueFlags.vnone ∧ 0 ≤ v) :=
        ⟨by simp, by omega⟩
      simp [print_integer_to_stream, h0, hc]
    · have hc : (ValueFlags.format_as_octal ≠ ValueFlags.vnone ∧ 0 ≤ v) :=
        ⟨by simp, by omega⟩
      simp [print_integer_to_stream, h0, hc]
    · have hc : (ValueFlags.format_as_hexadecimal ≠ ValueFlags.vnone ∧ 0 ≤ v) :=
        ⟨by simp, by omega⟩
      simp [print_integer_to_stream, h0, hc]

/-- C7 witness: a negative value with the binary hint falls back to
decimal; a positive value with the hexadecimal hint renders uppercased
base 16. -/
theorem print_integer_spec_witness :
    print_integer_to_stream (-5) ValueFlags.format_as_binary = to_chars_int (-5) 10 ∧
    print_integer_to_stream 10 ValueFlags.format_as_hexadecimal =
      String.mk ((to_chars_int 10 16).data.map hex_uppercase) :=
  ⟨(print_integer_spec (-5) ValueFlags.format_as_binary (by norm_num)
      (by norm_num)).2.1 (by norm_num),
   ((print_integer_spec 10 ValueFlags.format_as_hexadecimal (by norm_num)
      (by norm_num)).2.2 (by norm_num)).2.2.2⟩

/-- C8: for a finite float, when the hint is not hexadecimal the encoder
emits the rendered text plus `".0"` exactly when that text contains no
`.` and no `e`/`E`, and the unmodified text otherwise; with the
hexadecimal hint the hex-float text is emitted untouched. The last
conjunct ties the scan to the claim's wording. -/
theorem print_floating_point_spec (format : ValueFlags) (rhex rdec : String) :
    (format_as_hex_test format = false →
      ((needs_decimal_point rdec = true →
         print_floating_point_to_stream FpClass.ok rhex rdec format = rdec ++ ".0") ∧
       (needs_decimal_point rdec = false →
         print_floating_point_to_stream FpClass.ok rhex rdec format = rdec))) ∧
    (format_as_hex_test format = true →
      print_floating_point_to_stream FpClass.ok rhex rdec format = rhex) ∧
    (needs_decimal_point rdec = true ↔
      ∀ c ∈ rdec.data, c ≠ '.' ∧ c ≠ 'E' ∧ c ≠ 'e') := by
  refine ⟨?_, ?_, ?_⟩
  · intro hf
    constructor
    · intro hn
      simp [print_floating_point_to_stream, hf, hn]
    · intro hn
      simp [print_floating_point_to_stream, hf, hn]
  · intro hf
    simp [print_floating_point_to_stream, hf]
  · rw [needs_decimal_point, List.all_eq_true]
    constructor
    · intro h c hc
      have h2 := h c hc
      simp at h2
      exact ⟨h2.1.1, h2.1.2, h2.2⟩
    · intro h c hc
      obtain ⟨h1, h2, h3⟩ := h c hc
      simp [h1, h2, h3]

/-- C8 witness: a rendered text with no decimal point or exponent gains a
trailing `.0`; one with an exponent stays unchanged; the hexadecimal hint
passes the hex-float text through. -/
theorem print_floating_point_spec_witness :
    print_floating_point_to_stream FpClass.ok "0x1.1p+4" "17" ValueFlags.vnone = "17.0" ∧
    print_floating_point_to_stream FpClass.ok "0x1.1p+4" "1.7e1" ValueFlags.vnone = "1.7e1" ∧
    print_floating_point_to_stream FpClass.ok "0x1.1p+4" "17"
      ValueFlags.format_as_hexadecimal = "0x1.1p+4" :=
  ⟨((print_floating_point_spec ValueFlags.vnone "0x1.1p+4" "17").1 rfl).1 rfl,
   ((print_floating_point_spec ValueFlags.vnone "0x1.1p+4" "1.7e1").1 rfl).2 rfl,
   (print_floating_point_spec ValueFlags.format_as_hexadecimal "0x1.1p+4" "17").2.1 rfl⟩

/-- The configuration matching `default_formatter::default_flags`:
`format_flags::indentation` is on (so sub-tables and array elements are
indented) and the indent string is four spaces. -/
def cfg0 : FmtConfig := { indent_sub_tables := true, indent_array_elements := true, indent_columns := 4 }

/-- A freshly constructed formatter's tracked state: indent 0, empty key
path, `pending_table_separator_ = false` (its member initialiser). -/
def st0 : FmtState := { indent := 0, key_path := [], pending_table_separator := false }

/-- The document `\x7btable t with sub-table t.x = 1\x7d` used to exercise
formatter reuse. -/
def c1_doc : Node := Node.table false [("t", Node.table false [("x", Node.int 1)])]

/-- C1 (amended): at the start of each full print `operator<<` clears the
key-path stack, but the pending-separator flag is NOT reset: it keeps
whatever value the previous print left, and the whole print is the plain
print entry point run from that partially-reset state. -/
theorem start_of_print_resets (cfg : FmtConfig) (st : FmtState) (source : Node) :
    default_formatter_output cfg st source = print_top cfg (start_of_print_state st) source ∧
    (start_of_print_state st).key_path = [] ∧
    (start_of_print_state st).pending_table_separator = st.pending_table_separator ∧
    (start_of_print_state st).indent = st.indent :=
  ⟨rfl, rfl, rfl, rfl⟩

/-- C1 counterexample: after one full print of `c1_doc` on a fresh
formatter the pending-separator flag is left set, so the second print on
the reused instance starts with the flag set (the claim says it is
cleared) and emits two extra separator newlines: the two prints of the
same document produce different event streams. -/
theorem per_print_state_reset_cex :
    (start_of_print_state (default_formatter_output cfg0 st0 c1_doc).2).pending_table_separator
        = true ∧
    (default_formatter_output cfg0 (default_formatter_output cfg0 st0 c1_doc).2 c1_doc).1.length
        = (default_formatter_output cfg0 st0 c1_doc).1.length + 2 := by
  constructor
  · simp [default_formatter_output, start_of_print_state, print_top, c1_doc, cfg0, st0,
      print_table, print_table_pass1, print_table_pass2, print_table_pass3,
      immediate_pass_skips, print_value_like, child_counts, print_pending_sep,
      print_key_path_evs, is_non_inline_array_of_tables, is_array_of_tables, is_homogeneous]
  · simp [default_formatter_output, start_of_print_state, print_top, c1_doc, cfg0, st0,
      print_table, print_table_pass1, print_table_pass2, print_table_pass3,
      immediate_pass_skips, print_value_like, child_counts, print_pending_sep,
      print_key_path_evs, is_non_inline_array_of_tables, is_array_of_tables, is_homogeneous]

/-- C3 (amended): the `[[key]]`-gating predicate holds iff the array is
non-empty, every element is a table, and its FIRST element does not
declare itself inline — the C++ tests `get_as<table>(0u)->is_inline()`
only, so inline tables after the first do not block block layout. -/
theorem is_non_inline_aot_spec (elems : List Node) :
    is_non_inline_array_of_tables (Node.arr elems) = true ↔
      (elems ≠ [] ∧ (∀ e ∈ elems, node_type e = NodeType.table) ∧
       (∀ i ces rest, elems = Node.table i ces :: rest → i = false)) := by
  rcases elems with _ | ⟨e0, tail⟩
  · simp [is_non_inline_array_of_tables, is_array_of_tables, is_homogeneous]
  · rcases e0 with ⟨i, ces⟩ | ⟨es⟩ | ⟨s⟩ | ⟨n⟩ | ⟨q⟩ | ⟨b⟩ | ⟨y, m, d⟩ | ⟨h, m, s, n⟩ |
      ⟨y, mo, d, h, mi, s, n, o⟩
    case table =>
      simp only [is_non_inline_array_of_tables, is_array_of_tables, is_homogeneous,
        Bool.and_eq_true, List.all_eq_true]
      constructor
      · rintro ⟨hall, hhead⟩
        refine ⟨by simp, ?_, ?_⟩
        · intro v hv
          have := hall v hv
          simpa [node_type] using this
        · intro i2 ces2 rest2 heq
          injection heq with h1 h2
          injection h1 with hi hces
          subst hi
          simpa using hhead
      · rintro ⟨hne, hall, hhead⟩
        constructor
        · intro v hv
          simp [hall v hv]
        · have := hhead i ces tail rfl
          simp [this]
    all_goals
      simp [is_non_inline_array_of_tables, is_array_of_tables, is_homogeneous, node_type]

/-- C3 witness: the characterisation instantiated at a one-table array. -/
theorem is_non_inline_aot_spec_witness :
    is_non_inline_array_of_tables (Node.arr [Node.table false []]) = true ↔
      ([Node.table false []] ≠ [] ∧
       (∀ e ∈ [Node.table false []], node_type e = NodeType.table) ∧
       (∀ i ces rest, [Node.table false []] = Node.table i ces :: rest → i = false)) :=
  is_non_inline_aot_spec [Node.table false []]

/-- A homogeneous table array whose first element is non-inline but whose
second element IS inline. -/
def c3_mixed : List Node := [Node.table false [("a", Node.int 1)], Node.table true []]

/-- C3 counterexample: the claim requires that NO table element declares
itself inline, but on `c3_mixed` (second element inline) the predicate is
nevertheless true, and a table holding it under `items` is still printed
with two `[[` headers (block array-of-tables layout). -/
theorem is_non_inline_aot_cex :
    is_non_inline_array_of_tables (Node.arr c3_mixed) = true ∧
    (c3_mixed.any fun e =>
      match e with
      | Node.table true _ => true
      | _ => false) = true ∧
    count_raw "[[" (print_table cfg0 st0 [("items", Node.arr c3_mixed)]).1 = 2 := by
  refine ⟨rfl, rfl, ?_⟩
  simp [c3_mixed, cfg0, st0, print_table, print_table_pass1, print_table_pass2,
    print_table_pass3, print_table_array_elems, immediate_pass_skips, print_value_like,
    child_counts, print_pending_sep, print_key_path_evs, is_non_inline_array_of_tables,
    is_array_of_tables, is_homogeneous, node_type, count_raw]

/-- C6: block-printing a table whose single entry is a non-inline
sub-table. With `skip` the code's header-skip test (no value-like
children, and at least one nested non-inline table or array-of-tables),
the emitted events are: nothing for the header when `skip` holds,
otherwise the flushed pending separator, the indent, `[`, the FULL dotted
key path extended with the sub-table's key, and `]`; in both cases the
sub-table's children are then printed recursively in a state whose key
path has the key pushed (so all descendant headers use the full path,
including a skipped key), and afterwards the key path and the indent are
restored to their original values. -/
theorem sub_table_header_skip (cfg : FmtConfig) (st : FmtState) (k : String)
    (ces : List (String × Node)) (rest : List (String × Node)) :
    (print_table_pass2 cfg st ((k, Node.table false ces) :: rest)).1 =
      (if ((child_counts ces).1 == 0 &&
            ((child_counts ces).2.1 != 0 || (child_counts ces).2.2 != 0))
       then ([] : List Ev)
       else ((if st.pending_table_separator then [Ev.newline true, Ev.newline true] else [])
         ++ [Ev.indent_here, Ev.raw "["]
         ++ print_key_path_evs (st.key_path ++ [k]) ++ [Ev.raw "]"]))
      ++ (print_table cfg
            (if ((child_counts ces).1 == 0 &&
                  ((child_counts ces).2.1 != 0 || (child_counts ces).2.2 != 0))
             then { st with key_path := st.key_path ++ [k] }
             else { indent := st.indent + (if cfg.indent_sub_tables then 1 else 0),
                    key_path := st.key_path ++ [k],
                    pending_table_separator := true }) ces).1
      ++ (print_table_pass2 cfg
            { indent := st.indent, key_path := st.key_path,
              pending_table_separator :=
                (print_table cfg
                  (if ((child_counts ces).1 == 0 &&
                        ((child_counts ces).2.1 != 0 || (child_counts ces).2.2 != 0))
                   then { st with key_path := st.key_path ++ [k] }
                   else { indent := st.indent + (if cfg.indent_sub_tables then 1 else 0),
                          key_path := st.key_path ++ [k],
                          pending_table_separator := true }) ces).2.pending_table_separator }
            rest).1 ∧
    (print_table cfg st [(k, Node.table false ces)]).1 =
      (if ((child_counts ces).1 == 0 &&
            ((child_counts ces).2.1 != 0 || (child_counts ces).2.2 != 0))
       then ([] : List Ev)
       else ((if st.pending_table_separator then [Ev.newline true, Ev.newline true] else [])
         ++ [Ev.indent_here, Ev.raw "["]
         ++ print_key_path_evs (st.key_path ++ [k]) ++ [Ev.raw "]"]))
      ++ (print_table cfg
            (if ((child_counts ces).1 == 0 &&
                  ((child_counts ces).2.1 != 0 || (child_counts ces).2.2 != 0))
             then { st with key_path := st.key_path ++ [k] }
             else { indent := st.indent + (if cfg.indent_sub_tables then 1 else 0),
                    key_path := st.key_path ++ [k],
                    pending_table_separator := true }) ces).1 ∧
    (print_table cfg st [(k, Node.table false ces)]).2.key_path = st.key_path ∧
    (print_table cfg st [(k, Node.table false ces)]).2.indent = st.indent := by
  refine ⟨?_, ?_, (print_table_preserves cfg st [(k, Node.table false ces)]).1,
    (print_table_preserves cfg st [(k, Node.table false ces)]).2⟩
  · have hkp1 : ∀ stX, (print_table cfg stX ces).2.key_path = stX.key_path :=
      fun stX => (print_table_preserves cfg stX ces).1
    have hkp2 : ∀ stX, (print_table cfg stX ces).2.indent = stX.indent :=
      fun stX => (print_table_preserves cfg stX ces).2
    cases hsk : ((child_counts ces).1 == 0 &&
        ((child_counts ces).2.1 != 0 || (child_counts ces).2.2 != 0)) <;>
      cases hp : st.pending_table_separator <;>
      cases hst : cfg.indent_sub_tables <;>
      simp [print_table_pass2, print_pending_sep, hsk, hp, hst, hkp1, hkp2,
        FmtState.mk.injEq] <;>
      omega
  · cases hsk : ((child_counts ces).1 == 0 &&
        ((child_counts ces).2.1 != 0 || (child_counts ces).2.2 != 0)) <;>
      cases hp : st.pending_table_separator <;>
      cases hst : cfg.indent_sub_tables <;>
      simp [print_table, print_table_pass1, print_table_pass2, print_table_pass3,
        immediate_pass_skips, print_pending_sep, hsk, hp, hst]
